import Mathlib

/-!
Shallow embedding of `run_later_server.py` (the run_later daemon core):
the Task entity with its dict (de)serialization, the Task Store's two
collections (active and completed tasks, modelled as insertion-ordered
association lists, matching Python dict semantics), the scheduler loop's
per-tick dequeue, the executor's completion recording with history
pruning, the persistence loaders, and the four request handlers
(schedule / list / history / cancel).

Timestamps (`datetime.datetime`) are modelled as integers (seconds);
`datetime.timedelta(seconds=d)` is the integer `d`.  ISO-8601
serialization of a timestamp is modelled as the identity on the abstract
integer timestamp (`isoformat` / `fromisoformat` are mutually inverse on
the datetimes the program produces).  JSON scalar values appearing in
task records and requests are modelled by `DVal`.
-/

namespace RunLater

/-- A JSON scalar value as it appears in task records and requests. -/
inductive DVal where
  | str : String → DVal
  | int : Int → DVal
  | bool : Bool → DVal
deriving DecidableEq, Repr

/-- The Task entity (class `Task`, run_later_server.py lines 17-24).
`exit_code` and `completion_time` are `None` (here `none`) until the
task has completed. -/
structure Task where
  command : String
  target_time : Int
  task_id : String
  completed : Bool
  exit_code : Option Int
  completion_time : Option Int
deriving DecidableEq, Repr

/-- Python dict lookup `m.get(k)` / `m[k]` on an insertion-ordered
association list. -/
def dictGet {β : Type} (k : String) : List (String × β) → Option β
  | [] => none
  | (k', v) :: rest => if k' = k then some v else dictGet k rest

/-- Python dict assignment `m[k] = v`: replaces the value in place if the
key is present, otherwise appends at the end (insertion order). -/
def dictInsert {β : Type} (k : String) (v : β) : List (String × β) → List (String × β)
  | [] => [(k, v)]
  | (k', v') :: rest =>
    if k' = k then (k, v) :: rest else (k', v') :: dictInsert k v rest

/-- Python dict deletion `del m[k]`: removes the entry for `k`. -/
def dictErase {β : Type} (k : String) : List (String × β) → List (String × β)
  | [] => []
  | (k', v') :: rest => if k' = k then rest else (k', v') :: dictErase k rest

/-- The keys of a dict, in order. -/
def dictKeys {β : Type} (m : List (String × β)) : List String := m.map (·.1)

/-- `Task.to_dict` (lines 26-37): serializes the task to its record
form; `exit_code` is emitted only when it `is not None`, and
`completion_time` only when truthy (a datetime is truthy exactly when it
is not `None`). -/
def Task.to_dict (t : Task) : List (String × DVal) :=
  [("command", DVal.str t.command), ("target_time", DVal.int t.target_time),
   ("task_id", DVal.str t.task_id), ("completed", DVal.bool t.completed)]
  ++ (match t.exit_code with
      | some c => [("exit_code", DVal.int c)]
      | none => [])
  ++ (match t.completion_time with
      | some ct => [("completion_time", DVal.int ct)]
      | none => [])

/-- Typed projection of a JSON value to a string. -/
def DVal.asStr : DVal → Option String
  | .str s => some s
  | _ => none

/-- Typed projection of a JSON value to an integer. -/
def DVal.asInt : DVal → Option Int
  | .int n => some n
  | _ => none

/-- Typed projection of a JSON value to a boolean. -/
def DVal.asBool : DVal → Option Bool
  | .bool b => some b
  | _ => none

/-- `Task.from_dict` (lines 39-51): rebuilds a task from its record by
calling the `Task` constructor.  `command`, `target_time` and `task_id`
are mandatory (a missing key raises `KeyError`, modelled as `none`);
`completed` defaults to false; `exit_code` / `completion_time` are read
only when present.  The constructor (line 21) sets
`self.task_id = task_id or str(int(time.time() * 1000))`, so a falsy
(empty) `task_id` in the record is replaced by a fresh clock-generated
id; that clock read is supplied here as the `gen_id` parameter, exactly
as for `handle_schedule`.  A record whose mandatory fields have the
wrong JSON type is outside the model and also maps to `none`. -/
def Task.from_dict (gen_id : String) (d : List (String × DVal)) : Option Task :=
  match dictGet "command" d, dictGet "target_time" d, dictGet "task_id" d with
  | some cv, some tv, some iv =>
    match cv.asStr, tv.asInt, iv.asStr with
    | some cmd, some tt, some tid =>
      let completedField : Option Bool :=
        match dictGet "completed" d with
        | none => some false
        | some v => v.asBool
      let exitField : Option (Option Int) :=
        match dictGet "exit_code" d with
        | none => some none
        | some v => (v.asInt).map some
      let ctField : Option (Option Int) :=
        match dictGet "completion_time" d with
        | none => some none
        | some v => (v.asInt).map some
      match completedField, exitField, ctField with
      | some c, some ec, some ct =>
        some ⟨cmd, tt, if tid = "" then gen_id else tid, c, ec, ct⟩
      | _, _, _ => none
    | _, _, _ => none
  | _, _, _ => none

/-- The Task Store's two collections (`TaskServer.tasks` and
`TaskServer.completed_tasks`, lines 57-58), each a Python dict from task
id to `Task`. -/
structure Store where
  tasks : List (String × Task)
  completed_tasks : List (String × Task)
deriving DecidableEq, Repr

/-- Comparison on optional completion times matching the sort key
`x[1].completion_time or datetime.datetime.min` (lines 125, 288, 389):
a missing completion time compares as `datetime.min`, i.e. least. -/
def optLE : Option Int → Option Int → Bool
  | none, _ => true
  | some _, none => false
  | some x, some y => decide (x ≤ y)

/-- The sort key of one `(task_id, task)` entry. -/
def completionKey (p : String × Task) : Option Int := p.2.completion_time

/-- Descending order on entries: `p` comes no later than `q` when `p`'s
completion time is at least `q`'s (this is `sorted(..., reverse=True)`
with the key above). -/
def keyGE (p q : String × Task) : Prop :=
  optLE (completionKey q) (completionKey p) = true

instance : DecidableRel keyGE := fun p q =>
  inferInstanceAs (Decidable (optLE (completionKey q) (completionKey p) = true))

theorem optLE_total (a b : Option Int) : optLE a b = true ∨ optLE b a = true := by
  cases a <;> cases b <;> simp [optLE]
  exact Int.le_total _ _

theorem optLE_trans {a b c : Option Int} (h1 : optLE a b = true)
    (h2 : optLE b c = true) : optLE a c = true := by
  cases a <;> cases b <;> cases c <;> simp_all [optLE]
  exact le_trans h1 h2

instance : IsTotal (String × Task) keyGE :=
  ⟨fun p q => optLE_total (completionKey q) (completionKey p)⟩

instance : IsTrans (String × Task) keyGE :=
  ⟨fun _ _ _ h1 h2 => optLE_trans h2 h1⟩

/-- `sorted(m.items(), key=lambda x: x[1].completion_time or
datetime.datetime.min, reverse=True)` (lines 123-127, 286-290,
387-391): the completed entries sorted with most recent completion time
first. -/
def sortDesc (m : List (String × Task)) : List (String × Task) :=
  List.insertionSort keyGE m

/-- Python slice `l[:n]`, including the negative-index convention. -/
def pySlice {β : Type} (n : Int) (l : List β) : List β :=
  if 0 ≤ n then l.take n.toNat else l.take (l.length - (-n).toNat)

/-- Lines 122-128 and 284-291: when the completed dict holds more than
100 entries, keep only the 100 most recent by completion time. -/
def pruneCompleted (m : List (String × Task)) : List (String × Task) :=
  if 100 < m.length then (sortDesc m).take 100 else m

/-- The completed-task record built by `_run_command` (lines 272-280):
`target_time` is fabricated as `completion_time` minus one second. -/
def completedTask (command task_id : String) (returncode completion_time : Int) : Task :=
  { command := command
    target_time := completion_time - 1
    task_id := task_id
    completed := true
    exit_code := some returncode
    completion_time := some completion_time }

/-- The completion-recording tail of `_run_command` (lines 270-293):
insert the reconstructed completed task into the completed dict, then
prune to the 100 most recent if the dict exceeds 100 entries.  The
function receives only the command and the task id (see `execute_task`,
lines 229-240); the task's original `target_time` is not available to
it. -/
def record_completion (command task_id : String) (returncode completion_time : Int)
    (st : Store) : Store :=
  { st with
    completed_tasks :=
      pruneCompleted
        (dictInsert task_id (completedTask command task_id returncode completion_time)
          st.completed_tasks) }

/-- The loading loop of `_load_completed_tasks` (lines 117-119): the
record at position `i` is parsed with the clock id `gens i` available
to the constructor's falsy-id fallback, and inserted keyed by its own
`task_id`.  A record that fails to parse raises, aborting the loop
(and, crucially, skipping the pruning step below); the boolean reports
whether the loop ran to completion. -/
def loadCompletedLoop (gens : Nat → String) :
    List (List (String × DVal)) → Nat → List (String × Task) →
    List (String × Task) × Bool
  | [], _, acc => (acc, true)
  | d :: rest, i, acc =>
    match Task.from_dict (gens i) d with
    | none => (acc, false)
    | some t => loadCompletedLoop gens rest (i + 1) (dictInsert t.task_id t acc)

/-- `_load_completed_tasks` (lines 108-132): load every record of the
persisted completed-tasks file, then prune to 100 — but only when no
record raised, since the `try` block is exited on the first exception
with the partially loaded dict kept as is. -/
def _load_completed_tasks (gens : Nat → String) (file : List (List (String × DVal)))
    (st : Store) : Store :=
  match loadCompletedLoop gens file 0 st.completed_tasks with
  | (m, true) => { st with completed_tasks := pruneCompleted m }
  | (m, false) => { st with completed_tasks := m }

/-- The loading loop of `_load_tasks` (lines 98-102): a persisted task
enters the active dict only when its `target_time` is strictly in the
future; stale tasks are dropped.  A record that fails to parse aborts
the loop, keeping what was loaded so far.  As above, `gens i` is the
clock id available to the constructor when parsing record `i`. -/
def loadTasksLoop (now : Int) (gens : Nat → String) :
    List (List (String × DVal)) → Nat → List (String × Task) →
    List (String × Task)
  | [], _, acc => acc
  | d :: rest, i, acc =>
    match Task.from_dict (gens i) d with
    | none => acc
    | some t =>
      loadTasksLoop now gens rest (i + 1)
        (if now < t.target_time then dictInsert t.task_id t acc else acc)

/-- `_load_tasks` (lines 89-106). -/
def _load_tasks (now : Int) (gens : Nat → String) (file : List (List (String × DVal)))
    (st : Store) : Store :=
  { st with tasks := loadTasksLoop now gens file 0 st.tasks }

/-- One pass of the due-task scan in `scheduler_loop` (lines 206-216):
every active task with `target_time <= now` is deleted from the active
dict and appended to `tasks_to_run`; the rest stay.  Returns the
remaining active dict and the dequeued tasks in scan order. -/
def scheduler_tick (now : Int) : List (String × Task) →
    List (String × Task) × List Task
  | [] => ([], [])
  | (task_id, t) :: rest =>
    let r := scheduler_tick now rest
    if t.target_time ≤ now then (r.1, t :: r.2) else ((task_id, t) :: r.1, r.2)

/-- A `schedule` request's relevant fields (`message.get('command')`,
`message.get('delay_seconds')`).  The command is modelled as an optional
string (the wire contract's type); the delay keeps its raw JSON value
so that ill-typed delays are representable. -/
structure ScheduleMsg where
  command : Option String
  delay_seconds : Option DVal
deriving DecidableEq, Repr

/-- Response of `handle_schedule`: either the success payload
(`status: success` with `task_id` and `target_time`) or an error
(`status: error` with a message). -/
inductive ScheduleResp where
  | ok (task_id : String) (target_time : Int)
  | err (message : String)
deriving DecidableEq, Repr

/-- `handle_schedule` (lines 342-366).  `gen_id` is the id produced by
the `Task` constructor's default (`str(int(time.time() * 1000))`),
supplied as a parameter since it comes from the clock.  The guard is
`if not command or delay_seconds is None` — an absent or empty command,
or an absent delay, is rejected; a string-valued delay raises
`TypeError` inside `datetime.timedelta`, caught by the handler's
`except` and returned as an error with the store untouched; a boolean
delay is accepted (Python `bool` is an `int`).  On success the task is
inserted into the active dict and the store persisted. -/
def handle_schedule (now : Int) (gen_id : String) (msg : ScheduleMsg) (st : Store) :
    ScheduleResp × Store :=
  match msg.command, msg.delay_seconds with
  | none, _ => (.err "Missing command or delay", st)
  | some _, none => (.err "Missing command or delay", st)
  | some c, some dv =>
    if c = "" then (.err "Missing command or delay", st)
    else
      match dv with
      | .str _ => (.err "unsupported type for timedelta seconds component: str", st)
      | .int d =>
        let target_time := now + d
        let task : Task := ⟨c, target_time, gen_id, false, none, none⟩
        (.ok gen_id target_time, { st with tasks := dictInsert gen_id task st.tasks })
      | .bool b =>
        let d : Int := if b then 1 else 0
        let target_time := now + d
        let task : Task := ⟨c, target_time, gen_id, false, none, none⟩
        (.ok gen_id target_time, { st with tasks := dictInsert gen_id task st.tasks })

/-- `handle_list` (lines 368-379): the `tasks` field of the response, a
mapping from task id to serialized task record, in insertion order. -/
def handle_list (st : Store) : List (String × List (String × DVal)) :=
  st.tasks.map (fun p => (p.1, p.2.to_dict))

/-- The `limited_tasks` computed by `handle_history` (lines 383-394):
completed tasks sorted most-recent-completion-time-first, cut to
`limit` (`message.get('limit', 10)` — default 10 when absent). -/
def handle_history_tasks (limit : Option Int) (st : Store) : List (String × Task) :=
  pySlice (limit.getD 10) (sortDesc st.completed_tasks)

/-- `handle_history` (lines 381-404): the `tasks` field of the
response. -/
def handle_history (limit : Option Int) (st : Store) : List (String × List (String × DVal)) :=
  (handle_history_tasks limit st).map (fun p => (p.1, p.2.to_dict))

/-- A `status` / `message` response pair as returned by
`handle_cancel`. -/
structure CancelResp where
  status : String
  message : String
deriving DecidableEq, Repr

/-- `handle_cancel` (lines 406-419): an absent or falsy (empty) task id
is rejected as missing; an id present in the active dict is deleted and
reported cancelled; any other id yields the not-found error.  The
completed dict is never touched. -/
def handle_cancel (task_id : Option String) (st : Store) : CancelResp × Store :=
  match task_id with
  | none => (⟨"error", "Missing task_id"⟩, st)
  | some tid =>
    if tid = "" then (⟨"error", "Missing task_id"⟩, st)
    else if (dictGet tid st.tasks).isSome then
      (⟨"success", "Task " ++ tid ++ " cancelled"⟩, { st with tasks := dictErase tid st.tasks })
    else
      (⟨"error", "Task " ++ tid ++ " not found"⟩, st)

/-!
Transition system for the temporal claims.  Each task object created by
a `schedule` request is tagged with a serial number (Python object
identity): the active dict maps a task id to its serial and target
time, and `fired` is the log of serials handed to the Executor by the
scheduler loop.  All Task Store operations run under the single store
lock (lines 210, 237, 270, 354, 370, 385, 413), so an execution of the
daemon is an interleaving of these atomic steps.
-/

/-- Global state for the temporal model: the active dict (task id ↦
serial, target time), the log of serials handed to the Executor, and
the next fresh serial. -/
structure Sys where
  active : List (String × Nat × Int)
  fired : List Nat
  counter : Nat
deriving DecidableEq, Repr

/-- The serials currently present in an active dict. -/
def serials (l : List (String × Nat × Int)) : List Nat := l.map (fun p => p.2.1)

/-- Atomic Task Store steps.  `schedule` inserts a brand-new task
object (fresh serial) under its id (lines 354-356); `cancel` deletes an
active entry (lines 413-416); `tick` is one scheduler pass (lines
210-224): every due entry is removed from the active dict and its task
handed to the Executor, appended to the `fired` log; `record` is the
Executor writing a completion into the completed dict (lines 270-293),
which touches neither the active dict nor the `fired` log. -/
inductive Step : Sys → Sys → Prop where
  | schedule (s : Sys) (id : String) (tt : Int) :
      Step s ⟨dictInsert id (s.counter, tt) s.active, s.fired, s.counter + 1⟩
  | cancel (s : Sys) (id : String) :
      Step s ⟨dictErase id s.active, s.fired, s.counter⟩
  | tick (s : Sys) (now : Int) :
      Step s ⟨s.active.filter (fun p => !decide (p.2.2 ≤ now)),
              s.fired ++ (s.active.filter (fun p => decide (p.2.2 ≤ now))).map (fun p => p.2.1),
              s.counter⟩
  | record (s : Sys) :
      Step s s

/-- The daemon starts with an empty store (loading persisted tasks is a
sequence of insertions of fresh task objects, covered by `schedule`
steps). -/
def init : Sys := ⟨[], [], 0⟩

/-- States reachable by the daemon. -/
def Reachable (s : Sys) : Prop := Relation.ReflTransGen Step init s

/-! Lemmas about the dict model. -/

theorem dictGet_dictInsert_self {β : Type} (k : String) (v : β) (m : List (String × β)) :
    dictGet k (dictInsert k v m) = some v := by
  induction m with
  | nil => simp [dictInsert, dictGet]
  | cons hd tl ih =>
    obtain ⟨k', v'⟩ := hd
    by_cases h : k' = k
    · simp [dictInsert, dictGet, h]
    · simp [dictInsert, dictGet, h, ih]

theorem dictInsert_of_get_none {β : Type} {k : String} {m : List (String × β)} (v : β)
    (h : dictGet k m = none) : dictInsert k v m = m ++ [(k, v)] := by
  induction m with
  | nil => simp [dictInsert]
  | cons hd tl ih =>
    obtain ⟨k', v'⟩ := hd
    by_cases hk : k' = k
    · simp [dictGet, hk] at h
    · simp [dictGet, hk] at h
      simp [dictInsert, hk, ih h]

theorem mem_dictInsert {β : Type} {k : String} {v : β} {m : List (String × β)}
    {p : String × β} (h : p ∈ dictInsert k v m) : p = (k, v) ∨ p ∈ m := by
  induction m with
  | nil => simpa [dictInsert] using h
  | cons hd tl ih =>
    obtain ⟨k', v'⟩ := hd
    by_cases hk : k' = k
    · simp [dictInsert, hk] at h
      rcases h with h | h
      · exact Or.inl (by simp [h])
      · exact Or.inr (by simp [h])
    · simp [dictInsert, hk] at h
      rcases h with h | h
      · exact Or.inr (by simp [h])
      · rcases ih h with h' | h'
        · exact Or.inl h'
        · exact Or.inr (by simp [h'])

theorem self_mem_dictInsert {β : Type} (k : String) (v : β) (m : List (String × β)) :
    (k, v) ∈ dictInsert k v m := by
  induction m with
  | nil => simp [dictInsert]
  | cons hd tl ih =>
    obtain ⟨k', v'⟩ := hd
    by_cases hk : k' = k <;> simp [dictInsert, hk, ih]

theorem dictInsert_length_le {β : Type} (k : String) (v : β) (m : List (String × β)) :
    (dictInsert k v m).length ≤ m.length + 1 := by
  induction m with
  | nil => simp [dictInsert]
  | cons hd tl ih =>
    obtain ⟨k', v'⟩ := hd
    by_cases hk : k' = k
    · simp [dictInsert, hk]
    · simp [dictInsert, hk]
      omega

theorem dictGet_map {β γ : Type} (k : String) (f : β → γ) (m : List (String × β)) :
    dictGet k (m.map (fun p => (p.1, f p.2))) = (dictGet k m).map f := by
  induction m with
  | nil => simp [dictGet]
  | cons hd tl ih =>
    obtain ⟨k', v'⟩ := hd
    by_cases hk : k' = k <;> simp [dictGet, hk, ih]

theorem dictErase_sublist {β : Type} (k : String) (m : List (String × β)) :
    List.Sublist (dictErase k m) m := by
  induction m with
  | nil => simp [dictErase]
  | cons hd tl ih =>
    obtain ⟨k', v'⟩ := hd
    by_cases hk : k' = k
    · simp only [dictErase, if_pos hk]
      exact List.sublist_cons_self _ _
    · simp only [dictErase, if_neg hk]
      exact List.Sublist.cons₂ _ ih

theorem dictGet_none_iff {β : Type} {k : String} {m : List (String × β)} :
    dictGet k m = none ↔ k ∉ dictKeys m := by
  induction m with
  | nil => simp [dictGet, dictKeys]
  | cons hd tl ih =>
    obtain ⟨k', v'⟩ := hd
    by_cases hk : k' = k
    · subst hk
      simp [dictGet, dictKeys]
    · have hk' : ¬ k = k' := fun h => hk h.symm
      simp [dictGet, dictKeys, hk, hk', ih]

theorem dictGet_dictErase_self {β : Type} {k : String} {m : List (String × β)}
    (h : (dictKeys m).Nodup) : dictGet k (dictErase k m) = none := by
  induction m with
  | nil => simp [dictErase, dictGet]
  | cons hd tl ih =>
    obtain ⟨k', v'⟩ := hd
    simp [dictKeys] at h
    by_cases hk : k' = k
    · subst hk
      simp [dictErase]
      exact dictGet_none_iff.mpr (by simpa [dictKeys] using h.1)
    · simp [dictErase, dictGet, hk]
      exact ih h.2

theorem mem_dictInsert_eq {β : Type} {k : String} {v x : β} {m : List (String × β)}
    (hn : (dictKeys m).Nodup) (h : (k, x) ∈ dictInsert k v m) : x = v := by
  induction m with
  | nil => simpa [dictInsert] using h
  | cons hd tl ih =>
    obtain ⟨k', v'⟩ := hd
    simp [dictKeys] at hn
    by_cases hk : k' = k
    · subst hk
      simp [dictInsert] at h
      rcases h with h | h
      · exact h
      · exact absurd (List.mem_map_of_mem (·.1) h) (by simpa [dictKeys] using hn.1)
    · simp [dictInsert, hk] at h
      rcases h with h | h
      · exact absurd h.1.symm hk
      · exact ih hn.2 h

/-! Lemmas about the descending sort and the pruning. -/

theorem sortDesc_perm (m : List (String × Task)) : (sortDesc m).Perm m :=
  List.perm_insertionSort keyGE m

theorem sortDesc_sorted (m : List (String × Task)) : List.Sorted keyGE (sortDesc m) :=
  List.sorted_insertionSort keyGE m

theorem sortDesc_length (m : List (String × Task)) : (sortDesc m).length = m.length :=
  (sortDesc_perm m).length_eq

/-- Cutting a descending-sorted permutation of `m` after `n` entries
keeps a sorted selection that dominates (by completion time) everything
it drops. -/
theorem sortDesc_take_spec (m : List (String × Task)) (n : Nat) :
    List.Sorted keyGE ((sortDesc m).take n) ∧
    (((sortDesc m).take n) ++ ((sortDesc m).drop n)).Perm m ∧
    (∀ p ∈ (sortDesc m).take n, ∀ q ∈ (sortDesc m).drop n, keyGE p q) := by
  have hsorted := sortDesc_sorted m
  have hsplit : (sortDesc m).take n ++ (sortDesc m).drop n = sortDesc m :=
    List.take_append_drop n (sortDesc m)
  have hpair : List.Pairwise keyGE ((sortDesc m).take n ++ (sortDesc m).drop n) := by
    rw [hsplit]; exact hsorted
  rw [List.pairwise_append] at hpair
  refine ⟨hpair.1, ?_, hpair.2.2⟩
  rw [hsplit]
  exact sortDesc_perm m

/-! Lemmas about serials and the transition system. -/

theorem mem_serials_dictInsert {id : String} {c : Nat} {tt : Int}
    {l : List (String × Nat × Int)} {n : Nat}
    (h : n ∈ serials (dictInsert id (c, tt) l)) : n = c ∨ n ∈ serials l := by
  simp only [serials, List.mem_map] at h ⊢
  obtain ⟨p, hp, hfp⟩ := h
  rcases mem_dictInsert hp with h' | h'
  · left; rw [h'] at hfp; exact hfp.symm
  · right; exact ⟨p, h', hfp⟩

theorem nodup_serials_dictInsert {id : String} {c : Nat} {tt : Int}
    {l : List (String × Nat × Int)} (hn : (serials l).Nodup)
    (hlt : ∀ m ∈ serials l, m < c) : (serials (dictInsert id (c, tt) l)).Nodup := by
  induction l with
  | nil => simp [dictInsert, serials]
  | cons hd tl ih =>
    obtain ⟨k', s', t'⟩ := hd
    simp only [serials, List.map_cons, List.nodup_cons] at hn
    by_cases hk : k' = id
    · simp only [dictInsert, if_pos hk, serials, List.map_cons, List.nodup_cons]
      refine ⟨fun hc => ?_, hn.2⟩
      have hmem : c ∈ serials ((k', s', t') :: tl) := by
        simp only [serials, List.map_cons, List.mem_cons]
        exact Or.inr hc
      exact absurd (hlt c hmem) (lt_irrefl c)
    · simp only [dictInsert, if_neg hk, serials, List.map_cons, List.nodup_cons]
      constructor
      · intro hc
        rcases mem_serials_dictInsert hc with h' | h'
        · have hmem : s' ∈ serials ((k', s', t') :: tl) := by simp [serials]
          exact absurd h' (Nat.ne_of_lt (hlt s' hmem))
        · exact hn.1 h'
      · refine ih hn.2 (fun m hm => hlt m ?_)
        simp only [serials, List.map_cons, List.mem_cons]
        exact Or.inr hm

theorem mem_map_of_mem_filter_map {α : Type} {f : α → Nat} {p : α → Bool} {l : List α}
    {n : Nat} (h : n ∈ (l.filter p).map f) : n ∈ l.map f :=
  ((l.filter_sublist).map f).subset h

theorem nodup_map_filter_disjoint {α : Type} {f : α → Nat} {p : α → Bool} {l : List α}
    (h : (l.map f).Nodup) {n : Nat} (h1 : n ∈ (l.filter p).map f)
    (h2 : n ∈ (l.filter (fun a => !p a)).map f) : False := by
  induction l with
  | nil => simp at h1
  | cons a tl ih =>
    simp only [List.map_cons, List.nodup_cons] at h
    cases hp : p a
    · rw [List.filter_cons_of_neg (by simp [hp])] at h1
      rw [List.filter_cons_of_pos (by simp [hp])] at h2
      simp only [List.map_cons, List.mem_cons] at h2
      rcases h2 with h2 | h2
      · exact h.1 (h2 ▸ mem_map_of_mem_filter_map h1)
      · exact ih h.2 h1 h2
    · rw [List.filter_cons_of_pos (by simp [hp])] at h1
      rw [List.filter_cons_of_neg (by simp [hp])] at h2
      simp only [List.map_cons, List.mem_cons] at h1
      rcases h1 with h1 | h1
      · exact h.1 (h1 ▸ mem_map_of_mem_filter_map h2)
      · exact ih h.2 h1 h2

/-- The invariant maintained by every Task Store step: all serials are
below the fresh counter, the serials in the active dict are distinct,
the execution log holds no duplicate serial, and no serial in the log is
still active. -/
def Inv (s : Sys) : Prop :=
  (∀ n ∈ serials s.active, n < s.counter) ∧
  (∀ n ∈ s.fired, n < s.counter) ∧
  (serials s.active).Nodup ∧
  s.fired.Nodup ∧
  (∀ n ∈ s.fired, n ∉ serials s.active)

theorem inv_init : Inv init := by
  refine ⟨?_, ?_, ?_, ?_, ?_⟩ <;> simp [init, serials]

theorem inv_step {s s' : Sys} (h : Inv s) (hs : Step s s') : Inv s' := by
  obtain ⟨h1, h2, h3, h4, h5⟩ := h
  cases hs with
  | schedule id tt =>
    refine ⟨?_, ?_, ?_, ?_, ?_⟩
    · intro n hn
      rcases mem_serials_dictInsert hn with h' | h'
      · exact h' ▸ Nat.lt_succ_self s.counter
      · exact Nat.lt_succ_of_lt (h1 n h')
    · exact fun n hn => Nat.lt_succ_of_lt (h2 n hn)
    · exact nodup_serials_dictInsert h3 h1
    · exact h4
    · intro n hn hmem
      rcases mem_serials_dictInsert hmem with h' | h'
      · exact absurd h' (Nat.ne_of_lt (h2 n hn))
      · exact h5 n hn h'
  | cancel id =>
    have hsub : List.Sublist (serials (dictErase id s.active)) (serials s.active) :=
      (dictErase_sublist id s.active).map _
    refine ⟨fun n hn => h1 n (hsub.subset hn), h2, h3.sublist hsub, h4,
      fun n hn hmem => h5 n hn (hsub.subset hmem)⟩
  | tick now =>
    have hsubDue : List.Sublist
        ((s.active.filter (fun p => decide (p.2.2 ≤ now))).map (fun p => p.2.1))
        (serials s.active) :=
      ((s.active.filter_sublist).map _)
    have hsubRem : List.Sublist
        (serials (s.active.filter (fun p => !decide (p.2.2 ≤ now))))
        (serials s.active) :=
      ((s.active.filter_sublist).map _)
    refine ⟨?_, ?_, ?_, ?_, ?_⟩
    · exact fun n hn => h1 n (hsubRem.subset hn)
    · intro n hn
      rcases List.mem_append.mp hn with h' | h'
      · exact h2 n h'
      · exact h1 n (hsubDue.subset h')
    · exact h3.sublist hsubRem
    · refine List.Nodup.append h4 (h3.sublist hsubDue) ?_
      intro n hn hn'
      exact h5 n hn (hsubDue.subset hn')
    · intro n hn hmem
      rcases List.mem_append.mp hn with h' | h'
      · exact h5 n h' (hsubRem.subset hmem)
      · exact nodup_map_filter_disjoint h3 h' hmem
  | record =>
    exact ⟨h1, h2, h3, h4, h5⟩

theorem reachable_inv {s : Sys} (h : Reachable s) : Inv s := by
  induction h with
  | refl => exact inv_init
  | tail _ hstep ih => exact inv_step ih hstep

/-! Lemmas about pruning. -/

theorem pruneCompleted_length (m : List (String × Task)) :
    (pruneCompleted m).length ≤ 100 := by
  unfold pruneCompleted
  split
  · rw [List.length_take, sortDesc_length]
    omega
  · omega

theorem pruneCompleted_eq_of_le {m : List (String × Task)} (h : m.length ≤ 100) :
    pruneCompleted m = m := by
  unfold pruneCompleted
  rw [if_neg (by omega)]

theorem mem_pruneCompleted {p : String × Task} {m : List (String × Task)}
    (h : p ∈ pruneCompleted m) : p ∈ m := by
  unfold pruneCompleted at h
  split at h
  · exact (sortDesc_perm m).subset (List.take_subset _ _ h)
  · exact h

/-- What "the 100 most recent entries by completion time, ties broken
arbitrarily" means: 100 entries are kept, the rest dropped, and every
kept entry's completion time is at least every dropped entry's. -/
def mostRecent100 (all kept : List (String × Task)) : Prop :=
  kept.length = 100 ∧
  ∃ dropped, (kept ++ dropped).Perm all ∧ ∀ p ∈ kept, ∀ q ∈ dropped, keyGE p q

theorem pruneCompleted_mostRecent {m : List (String × Task)} (h : 100 < m.length) :
    mostRecent100 m (pruneCompleted m) := by
  unfold pruneCompleted
  rw [if_pos h]
  obtain ⟨_, hperm, hdom⟩ := sortDesc_take_spec m 100
  refine ⟨?_, (sortDesc m).drop 100, hperm, hdom⟩
  rw [List.length_take, sortDesc_length]
  omega

/-- Every task accumulated by the `_load_tasks` loop has a strictly
future target time, provided the accumulator started that way. -/
theorem loadTasksLoop_future (now : Int) (gens : Nat → String)
    (file : List (List (String × DVal))) :
    ∀ i acc, (∀ p ∈ acc, now < p.2.target_time) →
      ∀ p ∈ loadTasksLoop now gens file i acc, now < p.2.target_time := by
  induction file with
  | nil =>
    intro i acc hacc p hp
    exact hacc p hp
  | cons d rest ih =>
    intro i acc hacc p hp
    unfold loadTasksLoop at hp
    cases hd : Task.from_dict (gens i) d with
    | none =>
      rw [hd] at hp
      exact hacc p hp
    | some t =>
      rw [hd] at hp
      refine ih _ _ ?_ p hp
      by_cases ht : now < t.target_time
      · rw [if_pos ht]
        intro q hq
        rcases mem_dictInsert hq with h' | h'
        · rw [h']; exact ht
        · exact hacc q h'
      · rw [if_neg ht]
        exact hacc

/-! Definitions and fixtures used by the claim theorems. -/

/-- The requests `handle_schedule` rejects: a missing or empty command,
a missing delay, or a string-typed delay (which makes
`datetime.timedelta` raise). -/
def badScheduleMsg (msg : ScheduleMsg) : Prop :=
  msg.command = none ∨ msg.command = some "" ∨ msg.delay_seconds = none ∨
    (∃ s, msg.delay_seconds = some (DVal.str s))

/-- A concrete active task used in witnesses and counterexamples. -/
def demoTask : Task := ⟨"echo hi", 5, "a", false, none, none⟩

/-- A store containing one active task under id `"a"`. -/
def demoStore : Store := ⟨[("a", demoTask)], []⟩

/-- A concrete well-formed completed-task record. -/
def overflowRecord (i : Nat) : List (String × DVal) :=
  [("command", DVal.str "c"), ("target_time", DVal.int 0),
   ("task_id", DVal.str (Nat.repr i)), ("completed", DVal.bool true),
   ("exit_code", DVal.int 0), ("completion_time", DVal.int (Int.ofNat i))]

/-- A persisted completed-tasks file holding 101 well-formed records
followed by one record that fails to parse (no `command` key: parsing
raises `KeyError`, aborting the loading loop before the pruning
step). -/
def overflowFile : List (List (String × DVal)) :=
  ((List.range 101).map overflowRecord) ++ [[]]

/-! Claim theorems. -/

/-- C9 (amended): serializing any Task with `to_dict` and parsing the
record back with `from_dict` yields a Task equal to the original in all
fields whenever the task's id is nonempty; a task with an empty (falsy)
`task_id` is instead rebuilt with the constructor's fresh
clock-generated id (line 21), all other fields equal.  In both cases
the `exit_code` / `completion_time` keys are present in the record
exactly when the corresponding fields are present on the task. -/
theorem C9_task_roundtrip (gen_id : String) (t : Task) :
    Task.from_dict gen_id t.to_dict =
      some (if t.task_id = "" then { t with task_id := gen_id } else t) ∧
    ((dictGet "exit_code" t.to_dict).isSome ↔ t.exit_code.isSome) ∧
    ((dictGet "completion_time" t.to_dict).isSome ↔ t.completion_time.isSome) := by
  obtain ⟨cmd, tt, tid, comp, ec, ct⟩ := t
  by_cases h : tid = "" <;>
    cases ec <;> cases ct <;>
      exact ⟨by simp [Task.to_dict, Task.from_dict, dictGet, DVal.asStr, DVal.asInt,
          DVal.asBool, h],
        by simp [Task.to_dict, dictGet], by simp [Task.to_dict, dictGet]⟩

/-- Counterexample to C9 as stated: at a Task whose `task_id` is the
empty string, the code's round trip does not return the original task
— the `Task` constructor's falsy-id fallback (line 21,
`task_id or str(int(time.time() * 1000))`) replaces the empty id with
a fresh clock-generated id (a nonempty digit string; a representative
concrete value is used here), so the rebuilt task differs from the
original in its `task_id` field. -/
theorem C9_counterexample :
    Task.from_dict "1700000000000" (Task.to_dict ⟨"c", 0, "", false, none, none⟩) ≠
      some ⟨"c", 0, "", false, none, none⟩ ∧
    Task.from_dict "1700000000000" (Task.to_dict ⟨"c", 0, "", false, none, none⟩) =
      some ⟨"c", 0, "1700000000000", false, none, none⟩ := by
  refine ⟨by decide, by decide⟩

/-- C6: one scheduler tick removes from the active dict exactly the
tasks whose target time is due (`target_time <= now`), hands each of
them (and nothing else) to the Executor in scan order, and keeps every
not-yet-due task unchanged. -/
theorem C6_scheduler_tick (now : Int) (m : List (String × Task)) :
    (scheduler_tick now m).1 = m.filter (fun p => !decide (p.2.target_time ≤ now)) ∧
    (scheduler_tick now m).2 =
      (m.filter (fun p => decide (p.2.target_time ≤ now))).map (fun p => p.2) := by
  induction m with
  | nil => exact ⟨rfl, rfl⟩
  | cons hd tl ih =>
    obtain ⟨id, t⟩ := hd
    by_cases h : t.target_time ≤ now
    · simp [scheduler_tick, h, List.filter_cons, ih.1, ih.2]
    · simp [scheduler_tick, h, List.filter_cons, ih.1, ih.2]

/-- C2: in every reachable state, the log of tasks handed to the
Executor has no duplicate (each scheduled task object is executed at
most once), and no task that was handed to the Executor is still — or
ever again — in the active set (no task is ever re-activated): the
statement holds at every reachable state, hence at every state after
the dequeue. -/
theorem C2_at_most_once (s : Sys) (h : Reachable s) :
    s.fired.Nodup ∧ ∀ n ∈ s.fired, n ∉ serials s.active := by
  have hinv := reachable_inv h
  exact ⟨hinv.2.2.2.1, hinv.2.2.2.2⟩

/-- Witness for C2 at the state reached by scheduling one task. -/
theorem C2_at_most_once_witness :
    (Sys.mk [("a", (0, 5))] [] 1).fired.Nodup ∧
    ∀ n ∈ (Sys.mk [("a", (0, 5))] [] 1).fired,
      n ∉ serials (Sys.mk [("a", (0, 5))] [] 1).active :=
  C2_at_most_once _ (Relation.ReflTransGen.single (Step.schedule init "a" 5))

/-- C10: the record inserted into the completed set by the Executor's
completion recording carries `target_time = completion_time - 1` (a
fabricated approximation); `record_completion` receives only the command
and task id, so the task's original scheduled target time is not
available to it and never reaches the completed set. -/
theorem C10_fabricated_target (cmd tid : String) (rc ct : Int) (st : Store)
    (hn : (dictKeys st.completed_tasks).Nodup) :
    (completedTask cmd tid rc ct).target_time = ct - 1 ∧
    (completedTask cmd tid rc ct).completion_time = some ct ∧
    (∀ t : Task, (tid, t) ∈ (record_completion cmd tid rc ct st).completed_tasks →
      t = completedTask cmd tid rc ct) ∧
    (st.completed_tasks.length < 100 →
      dictGet tid (record_completion cmd tid rc ct st).completed_tasks =
        some (completedTask cmd tid rc ct)) := by
  refine ⟨rfl, rfl, ?_, ?_⟩
  · intro t ht
    exact mem_dictInsert_eq hn (mem_pruneCompleted ht)
  · intro hlen
    have hle : (dictInsert tid (completedTask cmd tid rc ct) st.completed_tasks).length ≤ 100 :=
      le_trans (dictInsert_length_le _ _ _) (by omega)
    unfold record_completion
    simp only [pruneCompleted_eq_of_le hle]
    exact dictGet_dictInsert_self _ _ _

/-- Witness for C10 on an empty completed set. -/
theorem C10_fabricated_target_witness :
    (completedTask "c" "t" 0 5).target_time = 4 ∧
    (completedTask "c" "t" 0 5).completion_time = some 5 ∧
    (∀ t : Task, ("t", t) ∈ (record_completion "c" "t" 0 5 ⟨[], []⟩).completed_tasks →
      t = completedTask "c" "t" 0 5) ∧
    (([] : List (String × Task)).length < 100 →
      dictGet "t" (record_completion "c" "t" 0 5 ⟨[], []⟩).completed_tasks =
        some (completedTask "c" "t" 0 5)) :=
  C10_fabricated_target "c" "t" 0 5 ⟨[], []⟩ (by simp [dictKeys])

/-- C1 (amended): the Executor's completion recording always leaves the
completed set with at most 100 entries, and when the insertion would
make it exceed 100 it prunes to exactly the 100 entries with the most
recent completion time (ties arbitrary); a load from the persisted
completed-tasks file does the same provided every record of the file
parses (the loading loop ran to completion). -/
theorem C1_completed_bounded :
    (∀ (cmd tid : String) (rc ct : Int) (st : Store),
      (record_completion cmd tid rc ct st).completed_tasks.length ≤ 100) ∧
    (∀ (cmd tid : String) (rc ct : Int) (st : Store),
      100 < (dictInsert tid (completedTask cmd tid rc ct) st.completed_tasks).length →
      mostRecent100 (dictInsert tid (completedTask cmd tid rc ct) st.completed_tasks)
        (record_completion cmd tid rc ct st).completed_tasks) ∧
    (∀ (gens : Nat → String) (file : List (List (String × DVal))) (st : Store),
      (loadCompletedLoop gens file 0 st.completed_tasks).2 = true →
      (_load_completed_tasks gens file st).completed_tasks.length ≤ 100 ∧
      (100 < (loadCompletedLoop gens file 0 st.completed_tasks).1.length →
        mostRecent100 (loadCompletedLoop gens file 0 st.completed_tasks).1
          (_load_completed_tasks gens file st).completed_tasks)) := by
  refine ⟨?_, ?_, ?_⟩
  · intro cmd tid rc ct st
    exact pruneCompleted_length _
  · intro cmd tid rc ct st h
    exact pruneCompleted_mostRecent h
  · intro gens file st hflag
    unfold _load_completed_tasks
    cases hres : loadCompletedLoop gens file 0 st.completed_tasks with
    | mk m flag =>
      rw [hres] at hflag
      simp only at hflag
      subst hflag
      simp only
      exact ⟨pruneCompleted_length _, fun h => pruneCompleted_mostRecent h⟩

/-- Witness for C1 on a completion recorded into an empty store. -/
theorem C1_completed_bounded_witness :
    (record_completion "c" "t" 0 5 ⟨[], []⟩).completed_tasks.length ≤ 100 ∧
    ((_load_completed_tasks (fun _ => "g") [] ⟨[], []⟩).completed_tasks.length ≤ 100) :=
  ⟨C1_completed_bounded.1 "c" "t" 0 5 ⟨[], []⟩,
   (C1_completed_bounded.2.2 (fun _ => "g") [] ⟨[], []⟩ rfl).1⟩

/-- Counterexample to C1 as stated: loading a persisted completed-tasks
file that holds 101 well-formed records followed by one unparsable
record raises inside the loading loop, which skips the pruning step and
leaves 101 entries in the completed set — a reachable state whose
completed set exceeds 100. -/
theorem C1_counterexample :
    (_load_completed_tasks (fun _ => "g") overflowFile ⟨[], []⟩).completed_tasks.length = 101 ∧
    100 < (_load_completed_tasks (fun _ => "g") overflowFile ⟨[], []⟩).completed_tasks.length := by
  refine ⟨by decide, by decide⟩

/-- C3: a valid `schedule(command, delay)` request (command nonempty,
integer delay, `delay >= 0`) whose generated id is fresh returns
success with `target_time` equal to the request time plus the delay,
appends a task with exactly those fields to the active set (the
completed set untouched), and that task is immediately visible — with
the same serialized record — in the mapping returned by `list`. -/
theorem C3_schedule_visible (now : Int) (gid c : String) (d : Int) (st : Store)
    (hc : c ≠ "") (hd : 0 ≤ d) (hfresh : dictGet gid st.tasks = none) :
    handle_schedule now gid ⟨some c, some (DVal.int d)⟩ st =
      (ScheduleResp.ok gid (now + d),
        ⟨st.tasks ++ [(gid, ⟨c, now + d, gid, false, none, none⟩)], st.completed_tasks⟩) ∧
    dictGet gid (handle_schedule now gid ⟨some c, some (DVal.int d)⟩ st).2.tasks =
      some ⟨c, now + d, gid, false, none, none⟩ ∧
    dictGet gid (handle_list (handle_schedule now gid ⟨some c, some (DVal.int d)⟩ st).2) =
      some (Task.to_dict ⟨c, now + d, gid, false, none, none⟩) := by
  refine ⟨?_, ?_, ?_⟩
  · simp [handle_schedule, hc, dictInsert_of_get_none _ hfresh]
  · simp [handle_schedule, hc, dictGet_dictInsert_self]
  · simp [handle_list, handle_schedule, hc, dictGet_map, dictGet_dictInsert_self]

/-- Witness for C3: scheduling `echo` three seconds ahead on an empty
store. -/
theorem C3_schedule_visible_witness :
    handle_schedule 100 "1" ⟨some "echo", some (DVal.int 3)⟩ ⟨[], []⟩ =
      (ScheduleResp.ok "1" 103,
        ⟨[("1", ⟨"echo", 103, "1", false, none, none⟩)], []⟩) ∧
    dictGet "1" (handle_schedule 100 "1" ⟨some "echo", some (DVal.int 3)⟩ ⟨[], []⟩).2.tasks =
      some ⟨"echo", 103, "1", false, none, none⟩ ∧
    dictGet "1" (handle_list (handle_schedule 100 "1" ⟨some "echo", some (DVal.int 3)⟩ ⟨[], []⟩).2) =
      some (Task.to_dict ⟨"echo", 103, "1", false, none, none⟩) :=
  C3_schedule_visible 100 "1" "echo" 3 ⟨[], []⟩ (by decide) (by decide) rfl

/-- C4: a `schedule` request with an absent or empty command, an absent
delay, or an ill-typed (string) delay is answered with a `status:
error` response and leaves the store — in particular the active set —
completely unchanged; every other `schedule` request succeeds and adds
one task to the active set. -/
theorem C4_schedule_invalid (now : Int) (gid : String) (msg : ScheduleMsg) (st : Store) :
    (badScheduleMsg msg →
      (∃ e, (handle_schedule now gid msg st).1 = ScheduleResp.err e) ∧
      (handle_schedule now gid msg st).2 = st) ∧
    (¬ badScheduleMsg msg →
      ∃ tt task, (handle_schedule now gid msg st).1 = ScheduleResp.ok gid tt ∧
        (handle_schedule now gid msg st).2 =
          { st with tasks := dictInsert gid task st.tasks }) := by
  obtain ⟨mc, md⟩ := msg
  cases mc with
  | none =>
    refine ⟨fun _ => ⟨⟨_, rfl⟩, rfl⟩, fun hbad => absurd (Or.inl rfl) hbad⟩
  | some c =>
    by_cases hc : c = ""
    · subst hc
      cases md with
      | none => exact ⟨fun _ => ⟨⟨_, rfl⟩, rfl⟩, fun hbad => absurd (Or.inr (Or.inl rfl)) hbad⟩
      | some dv =>
        exact ⟨fun _ => ⟨⟨"Missing command or delay", by simp [handle_schedule]⟩,
          by simp [handle_schedule]⟩, fun hbad => absurd (Or.inr (Or.inl rfl)) hbad⟩
    · cases md with
      | none =>
        exact ⟨fun _ => ⟨⟨_, rfl⟩, rfl⟩, fun hbad => absurd (Or.inr (Or.inr (Or.inl rfl))) hbad⟩
      | some dv =>
        cases dv with
        | str s =>
          exact ⟨fun _ => ⟨⟨"unsupported type for timedelta seconds component: str",
            by simp [handle_schedule, hc]⟩, by simp [handle_schedule, hc]⟩,
            fun hbad => absurd (Or.inr (Or.inr (Or.inr ⟨s, rfl⟩))) hbad⟩
        | int d =>
          refine ⟨fun hbad => ?_, fun _ => ⟨now + d, ⟨c, now + d, gid, false, none, none⟩,
            by simp [handle_schedule, hc], by simp [handle_schedule, hc]⟩⟩
          rcases hbad with h | h | h | ⟨s, h⟩ <;> simp_all
        | bool b =>
          refine ⟨fun hbad => ?_, fun _ => ⟨now + (if b then 1 else 0),
            ⟨c, now + (if b then 1 else 0), gid, false, none, none⟩,
            by simp [handle_schedule, hc], by simp [handle_schedule, hc]⟩⟩
          rcases hbad with h | h | h | ⟨s, h⟩ <;> simp_all

/-- Witness for C4: the delay-less request from the spec's test is
rejected with an error and adds nothing. -/
theorem C4_schedule_invalid_witness :
    (∃ e, (handle_schedule 0 "1" ⟨some "echo hi", none⟩ ⟨[], []⟩).1 = ScheduleResp.err e) ∧
    (handle_schedule 0 "1" ⟨some "echo hi", none⟩ ⟨[], []⟩).2 = ⟨[], []⟩ :=
  (C4_schedule_invalid 0 "1" ⟨some "echo hi", none⟩ ⟨[], []⟩).1
    (Or.inr (Or.inr (Or.inl rfl)))

/-- C5 (amended): for any nonempty id, `cancel` succeeds exactly once
— if the id is active it is removed from the active set (the completed
set untouched) and a second `cancel` on the same id fails with the
not-found error leaving the store unchanged; a `cancel` on any nonempty
id not currently active fails with the not-found error and changes
nothing.  (An empty or absent `task_id` instead fails with the
`Missing task_id` error — see the counterexample.) -/
theorem C5_cancel_once (st : Store) (tid : String) (hne : tid ≠ "")
    (hnodup : (dictKeys st.tasks).Nodup) :
    ((dictGet tid st.tasks).isSome = true →
      handle_cancel (some tid) st =
        (⟨"success", "Task " ++ tid ++ " cancelled"⟩,
          ⟨dictErase tid st.tasks, st.completed_tasks⟩) ∧
      handle_cancel (some tid) (handle_cancel (some tid) st).2 =
        (⟨"error", "Task " ++ tid ++ " not found"⟩, (handle_cancel (some tid) st).2)) ∧
    ((dictGet tid st.tasks).isSome = false →
      handle_cancel (some tid) st = (⟨"error", "Task " ++ tid ++ " not found"⟩, st)) := by
  constructor
  · intro h
    have h1 : handle_cancel (some tid) st =
        (⟨"success", "Task " ++ tid ++ " cancelled"⟩,
          ⟨dictErase tid st.tasks, st.completed_tasks⟩) := by
      simp [handle_cancel, hne, h]
    refine ⟨h1, ?_⟩
    rw [h1]
    have h2 : dictGet tid (dictErase tid st.tasks) = none := dictGet_dictErase_self hnodup
    simp [handle_cancel, hne, h2]
  · intro h
    simp [handle_cancel, hne, h]

/-- Witness for C5 cancelling the one active task of `demoStore`. -/
theorem C5_cancel_once_witness :
    ((dictGet "a" demoStore.tasks).isSome = true →
      handle_cancel (some "a") demoStore =
        (⟨"success", "Task " ++ "a" ++ " cancelled"⟩,
          ⟨dictErase "a" demoStore.tasks, demoStore.completed_tasks⟩) ∧
      handle_cancel (some "a") (handle_cancel (some "a") demoStore).2 =
        (⟨"error", "Task " ++ "a" ++ " not found"⟩, (handle_cancel (some "a") demoStore).2)) ∧
    ((dictGet "a" demoStore.tasks).isSome = false →
      handle_cancel (some "a") demoStore =
        (⟨"error", "Task " ++ "a" ++ " not found"⟩, demoStore)) :=
  C5_cancel_once demoStore "a" (by decide) (by decide)

/-- Counterexample to C5 as stated: the empty string is an id that is
not in the active set, yet cancelling it yields the `Missing task_id`
error, not the not-found (`NotFound`) error the claim requires for
every non-active id. -/
theorem C5_counterexample :
    dictGet "" demoStore.tasks = none ∧
    (handle_cancel (some "") demoStore).1 = ⟨"error", "Missing task_id"⟩ ∧
    (handle_cancel (some "") demoStore).1 ≠ ⟨"error", "Task " ++ "" ++ " not found"⟩ := by
  refine ⟨by decide, by decide, by decide⟩

/-- C7: for any nonnegative limit, `history` returns at most `limit`
completed tasks, sorted most-recent-completion-time-first, and they
dominate (by completion time) every completed task not returned; a
request without a limit uses the default of 10. -/
theorem C7_history_limit (st : Store) (limit : Int) (hlim : 0 ≤ limit) :
    (handle_history_tasks (some limit) st).length ≤ limit.toNat ∧
    List.Sorted keyGE (handle_history_tasks (some limit) st) ∧
    (∃ rest, ((handle_history_tasks (some limit) st) ++ rest).Perm st.completed_tasks ∧
      ∀ p ∈ handle_history_tasks (some limit) st, ∀ q ∈ rest, keyGE p q) ∧
    handle_history_tasks none st = handle_history_tasks (some 10) st := by
  have heq : handle_history_tasks (some limit) st =
      (sortDesc st.completed_tasks).take limit.toNat := by
    simp [handle_history_tasks, pySlice, hlim]
  obtain ⟨hs, hperm, hdom⟩ := sortDesc_take_spec st.completed_tasks limit.toNat
  refine ⟨?_, ?_, ?_, rfl⟩
  · rw [heq, List.length_take]
    exact min_le_left _ _
  · rw [heq]
    exact hs
  · rw [heq]
    exact ⟨(sortDesc st.completed_tasks).drop limit.toNat, hperm, hdom⟩

/-- A store with two completed tasks, used by the C7 witness. -/
def demoHistStore : Store :=
  ⟨[], [("x", ⟨"c1", 9, "x", true, some 0, some 10⟩),
        ("y", ⟨"c2", 19, "y", true, some 0, some 20⟩)]⟩

/-- Witness for C7 with limit 1 on a two-task history. -/
theorem C7_history_limit_witness :
    (handle_history_tasks (some 1) demoHistStore).length ≤ (1 : Int).toNat ∧
    List.Sorted keyGE (handle_history_tasks (some 1) demoHistStore) ∧
    (∃ rest, ((handle_history_tasks (some 1) demoHistStore) ++ rest).Perm
        demoHistStore.completed_tasks ∧
      ∀ p ∈ handle_history_tasks (some 1) demoHistStore, ∀ q ∈ rest, keyGE p q) ∧
    handle_history_tasks none demoHistStore = handle_history_tasks (some 10) demoHistStore :=
  C7_history_limit demoHistStore 1 (by decide)

/-- C8 (amended): every task loaded from the persisted active-tasks
file has `target_time` strictly in the future relative to load time —
stale persisted tasks are dropped and never enter the active set; a
task created by a `schedule` request enters the active set with
`target_time = now + delay`, which is at least the creation time only
when the delay is nonnegative (the handler does not validate the
delay's sign, so a negative delay yields a past target time — see the
counterexample). -/
theorem C8_future_targets :
    (∀ (now : Int) (gens : Nat → String) (file : List (List (String × DVal)))
      (completed : List (String × Task)),
      ∀ p ∈ (_load_tasks now gens file ⟨[], completed⟩).tasks, now < p.2.target_time) ∧
    (∀ (now : Int) (gid c : String) (d : Int) (st : Store), c ≠ "" →
      dictGet gid (handle_schedule now gid ⟨some c, some (DVal.int d)⟩ st).2.tasks =
        some ⟨c, now + d, gid, false, none, none⟩ ∧
      (0 ≤ d → now ≤ now + d)) := by
  constructor
  · intro now gens file completed p hp
    exact loadTasksLoop_future now gens file 0 [] (by simp) p hp
  · intro now gid c d st hc
    refine ⟨?_, fun hd => by omega⟩
    simp [handle_schedule, hc, dictGet_dictInsert_self]

/-- Witness for C8: an empty persisted file, and a schedule three
seconds ahead. -/
theorem C8_future_targets_witness :
    (∀ p ∈ (_load_tasks 1000 (fun _ => "g") [] ⟨[], []⟩).tasks,
      (1000 : Int) < p.2.target_time) ∧
    (dictGet "1" (handle_schedule 0 "1" ⟨some "echo", some (DVal.int 3)⟩ ⟨[], []⟩).2.tasks =
      some ⟨"echo", 0 + 3, "1", false, none, none⟩ ∧
    ((0 : Int) ≤ 3 → (0 : Int) ≤ 0 + 3)) :=
  ⟨C8_future_targets.1 1000 (fun _ => "g") [] [],
   C8_future_targets.2 0 "1" "echo" 3 ⟨[], []⟩ (by decide)⟩

/-- Counterexample to C8 as stated: `schedule` accepts a negative
delay, inserting into the active set a task whose target time (995) is
strictly before its creation time (1000) — an active task whose
`target_time` is not in the future. -/
theorem C8_counterexample :
    (handle_schedule 1000 "id1" ⟨some "cmd", some (DVal.int (-5))⟩ ⟨[], []⟩).1 =
      ScheduleResp.ok "id1" 995 ∧
    dictGet "id1" (handle_schedule 1000 "id1" ⟨some "cmd", some (DVal.int (-5))⟩ ⟨[], []⟩).2.tasks =
      some ⟨"cmd", 995, "id1", false, none, none⟩ ∧
    (995 : Int) < 1000 := by
  refine ⟨by decide, by decide, by decide⟩

end RunLater
